import Mathlib

/-!
Verification of the spkrepo package-repository core against its
natural-language specification.

The repository's visible source (`manage.py`) contains the fixture
`populate`, the cascade `depopulate` and the `clean` command; the data
model and the build-selection engine live in the package's model layer,
which is modelled here from the specification (each such definition is
marked `Modelled from the spec`).  Machine-independent shallow embedding:
packages, versions and builds are plain structures, the selection path is
a pure function returning `Except`.
-/

namespace Spkrepo

/-- Modelled from the spec (§3 Architecture, missing `spkrepo/models.py`):
a device architecture; `is_wildcard` is true only for the universal
`noarch` entry. -/
structure Architecture where
  identifier : String
  is_wildcard : Bool
deriving DecidableEq

/-- Modelled from the spec (§3 Build, missing `spkrepo/models.py`):
one architecture-scoped artifact of a Version; `active` gates selection,
`architectures` is its non-empty coverage set. -/
structure Build where
  active : Bool
  architectures : List Architecture
deriving DecidableEq

/-- Modelled from the spec (§3 Version, missing `spkrepo/models.py`):
one numbered release; `version` is the authoritative ordering key,
`upstream_version` is opaque display data. -/
structure Version where
  version : Nat
  upstream_version : Option String
  dependencies : Option String
  service_dependencies : List String
  install_wizard : Bool
  upgrade_wizard : Bool
  startable : Bool
  builds : List Build
deriving DecidableEq

/-- Modelled from the spec (§3 Package, missing `spkrepo/models.py`):
the aggregate root, an ordered sequence of Versions. -/
structure Package where
  name : String
  versions : List Version
deriving DecidableEq

/-- Modelled from the spec (§7 error taxonomy): reasons attached to
`NoCompatibleBuildError`. -/
inductive NoCompatReason where
  | ArchitectureMismatch
  | DependencyUnmet
  | AllInactive
deriving DecidableEq

/-- Modelled from the spec (§7 error taxonomy). -/
inductive RepoError where
  | UnknownPackageError
  | UnknownArchitectureError
  | DuplicateVersionNumberError
  | DuplicateArchitectureCoverageError
  | OrderingInvariantViolation
  | NoCompatibleBuildError (reason : NoCompatReason)
deriving DecidableEq

/-- Modelled from the spec (§4.4, missing `spkrepo/models.py`):
`matches(architecture)` is true iff the architecture is in the Build's
set or the set contains the wildcard. -/
def Build.matches (b : Build) (a : Architecture) : Bool :=
  b.architectures.contains a || b.architectures.any (fun w => w.is_wildcard)

/-- Modelled from the spec (§4.4, missing `spkrepo/models.py`):
deactivation clears the `active` flag and nothing else. -/
def Build.deactivate (b : Build) : Build :=
  { b with active := false }

/-- Modelled from the spec (§4.4, missing `spkrepo/models.py`):
`covers(architectureSet)`: overlap test used by ingestion conflict checks. -/
def Build.covers (b : Build) (archs : List Architecture) : Bool :=
  b.architectures.any (fun a => archs.contains a)

/-- Modelled from the spec (§4.2, missing `spkrepo/models.py`):
absent/empty package dependency is always satisfied; a non-empty one names
exactly one package that must be installed. -/
def Version.dep_satisfied_by (v : Version) (installed : List String) : Bool :=
  match v.dependencies with
  | none => true
  | some d => d == "" || installed.contains d

/-- Modelled from the spec (§4.2, missing `spkrepo/models.py`):
service dependencies are satisfied iff the list is a subset of the
running-services set. -/
def Version.service_deps_satisfied_by (v : Version) (running : List String) : Bool :=
  v.service_dependencies.all (fun s => running.contains s)

/-- Modelled from the spec (§4.3, missing `spkrepo/models.py`):
`compare_to` orders strictly by the `version` integer; a tie signals a
data-integrity bug. -/
def Version.compare_to (v w : Version) : Except RepoError Ordering :=
  if v.version < w.version then .ok .lt
  else if w.version < v.version then .ok .gt
  else .error .OrderingInvariantViolation

/-- Modelled from the spec (§4.3, missing `spkrepo/models.py`):
`add_build` rejects a Build whose coverage overlaps an existing active
Build's coverage for the same Version. -/
def Version.add_build (v : Version) (b : Build) : Except RepoError Version :=
  if v.builds.any (fun eb => eb.active && eb.covers b.architectures) then
    .error .DuplicateArchitectureCoverageError
  else
    .ok { v with builds := v.builds ++ [b] }

/-- Modelled from the spec (§4.5, missing `spkrepo/models.py`):
`add_version` rejects a Version whose integer is already used. -/
def Package.add_version (p : Package) (v : Version) : Except RepoError Package :=
  if p.versions.any (fun w => w.version == v.version) then
    .error .DuplicateVersionNumberError
  else
    .ok { p with versions := p.versions ++ [v] }

/-- Spec §3 invariant: all `version` integers of a Package are pairwise
distinct. -/
def Package.versionsDistinct (p : Package) : Prop :=
  p.versions.Pairwise (fun a b => a.version ≠ b.version)

/-- Modelled from the spec (§4.1, missing `spkrepo/models.py`):
registry lookup of an architecture identifier. -/
def findArch (reg : List Architecture) (id_ : String) : Except RepoError Architecture :=
  match reg.find? (fun a => a.identifier == id_) with
  | some a => .ok a
  | none => .error .UnknownArchitectureError

/-- A Version is eligible for an architecture when some Build of it is
active and matches (spec §4.5 `latest_version_for` filter). -/
def Version.hasActiveMatch (v : Version) (a : Architecture) : Bool :=
  v.builds.any (fun b => b.active && b.matches a)

/-- Dependency gate of selection step 4 (spec §4.6): checks are applied
only when the corresponding set is supplied. -/
def depsOk (installed running : Option (List String)) (v : Version) : Bool :=
  (match installed with
   | none => true
   | some s => v.dep_satisfied_by s)
  && (match running with
      | none => true
      | some s => v.service_deps_satisfied_by s)

/-- Selection step 4 on one candidate Version: the first active Build
matching the architecture, gated by the dependency checks. -/
def pickBuild (a : Architecture) (installed running : Option (List String))
    (v : Version) : Option Build :=
  if depsOk installed running v then
    v.builds.find? (fun b => b.active && b.matches a)
  else
    none

/-- Descending insertion by the `version` integer (spec §4.6 step 3). -/
def insertDesc (v : Version) : List Version → List Version
  | [] => [v]
  | w :: ws =>
      if w.version ≤ v.version then v :: w :: ws
      else w :: insertDesc v ws

/-- Sort candidate Versions descending by the `version` integer. -/
def sortDesc : List Version → List Version
  | [] => []
  | v :: vs => insertDesc v (sortDesc vs)

/-- First candidate (in the given order) with a selectable Build
(spec §4.6 steps 4-5). -/
def firstMatch (a : Architecture) (installed running : Option (List String)) :
    List Version → Option (Version × Build)
  | [] => none
  | v :: vs =>
      match pickBuild a installed running v with
      | some b => some (v, b)
      | none => firstMatch a installed running vs

/-- Modelled from the spec (§4.6 step 5, missing `spkrepo/models.py`):
the specific unmet predicate recorded on failure. -/
def failReason (a : Architecture) (_i _r : Option (List String))
    (candidates : List Version) : NoCompatReason :=
  if candidates.any (fun v => v.hasActiveMatch a) then .DependencyUnmet
  else if candidates.any (fun v => v.builds.any (fun b => b.matches a)) then .AllInactive
  else .ArchitectureMismatch

/-- Ceiling filter of selection step 2 (spec §4.6). -/
def underCeiling (ceiling : Option Nat) (v : Version) : Bool :=
  match ceiling with
  | none => true
  | some c => v.version ≤ c

/-- Modelled from the spec (§4.6 and §6, missing `spkrepo/models.py`):
the Build Selector.  Resolves the Package, the Architecture, filters by
ceiling, sorts candidates descending by `version`, and returns the first
active matching Build whose Version passes the dependency gates. -/
def resolveBuild (reg : List Architecture) (repo : List Package)
    (pname : String) (archId : String) (ceiling : Option Nat)
    (installed running : Option (List String)) :
    Except RepoError (Version × Build) :=
  match repo.find? (fun p => p.name == pname) with
  | none => .error .UnknownPackageError
  | some p =>
      match findArch reg archId with
      | .error e => .error e
      | .ok a =>
          let candidates := p.versions.filter (underCeiling ceiling)
          match firstMatch a installed running (sortDesc candidates) with
          | some vb => .ok vb
          | none => .error (.NoCompatibleBuildError (failReason a installed running candidates))

/-- Modelled from the spec (§6 `deletePackage`, missing
`spkrepo/models.py`): database-side cascade removal of a Package. -/
def deletePackage (repo : List Package) (pname : String) : List Package :=
  repo.filter (fun p => !(p.name == pname))

/-- Deactivate the Build at one position of a build list; all other
Builds and the list length are untouched. -/
def deactivateNth : List Build → Nat → List Build
  | [], _ => []
  | b :: bs, 0 => b.deactivate :: bs
  | b :: bs, n + 1 => b :: deactivateNth bs n

/-- The per-Version rewrite of a deactivation: only the Version with the
targeted number is touched. -/
def deactVersion (vnum i : Nat) (w : Version) : Version :=
  if w.version == vnum then { w with builds := deactivateNth w.builds i } else w

/-- The per-Package rewrite of a deactivation: only the targeted Package
is touched. -/
def deactPackage (pname : String) (vnum i : Nat) (q : Package) : Package :=
  if q.name == pname then
    { q with versions := q.versions.map (deactVersion vnum i) }
  else q

/-- Modelled from the spec (§6 `setActive(buildId, false)`, missing
`spkrepo/models.py`): administrative deactivation of Build `i` of the
Version numbered `vnum` of the Package named `pname`. -/
def setBuildInactive (repo : List Package) (pname : String) (vnum i : Nat) :
    List Package :=
  repo.map (deactPackage pname vnum i)

/-! ### Fixture data of `manage.py populate`

`populate` builds four packages through the test factories.  The factory
defaults draw the architecture coverage of the unconstrained builds from
test data, so those coverage sets appear here as an abstract supply
`bs : Nat → List Architecture`, consumed in creation order; everything
explicit in `manage.py` (names, version integers, upstream strings,
dependencies, flags, the `noarch` builds of sickbeard, activity) is
transcribed literally. -/

/-- The universal wildcard architecture (`noarch`). -/
def noarchA : Architecture := { identifier := "noarch", is_wildcard := true }

/-- A concrete non-wildcard architecture used in concrete runs. -/
def x64A : Architecture := { identifier := "x64", is_wildcard := false }

/-- An active Build with the given coverage (`BuildFactory(..., active=True)`). -/
def mkBuild (archs : List Architecture) : Build :=
  { active := true, architectures := archs }

/-- A Version as produced by `VersionFactory` with the fields `populate`
passes explicitly. -/
def mkVersion (ver : Nat) (up : Option String) (deps : Option String)
    (sdeps : List String) (iw uw st : Bool) (builds : List Build) : Version :=
  { version := ver, upstream_version := up, dependencies := deps,
    service_dependencies := sdeps, install_wizard := iw,
    upgrade_wizard := uw, startable := st, builds := builds }

/-- The package list created by `manage.py populate`, with the
factory-chosen coverage of the unconstrained builds supplied by `bs`. -/
def populateFixtures (bs : Nat → List Architecture) : List Package :=
  [ { name := "nzbget",
      versions :=
        [ mkVersion 10 (some "12.0") none [] true false false
            [mkBuild (bs 0), mkBuild (bs 1)],
          mkVersion 11 (some "13.0") none [] true false false
            [mkBuild (bs 2), mkBuild (bs 3)] ] },
    { name := "sickbeard",
      versions :=
        [ mkVersion 3 (some "20140528") (some "git") [] false false true
            [mkBuild [noarchA]],
          mkVersion 4 (some "20140702") (some "git") [] false false true
            [mkBuild [noarchA]] ] },
    { name := "git",
      versions :=
        [ mkVersion 3 (some "1.8.4") none [] false false false
            [mkBuild (bs 4), mkBuild (bs 5), mkBuild (bs 6)],
          mkVersion 4 (some "2.1.2") none [] false false false
            [mkBuild (bs 7), mkBuild (bs 8), mkBuild (bs 9)] ] },
    { name := "bitlbee",
      versions :=
        [ mkVersion 9 (some "3.2.2") none [] false false true
            [mkBuild (bs 10), mkBuild (bs 11), mkBuild (bs 12)],
          mkVersion 10 (some "3.2.3") none [] false false true
            [mkBuild (bs 13), mkBuild (bs 14), mkBuild (bs 15)],
          mkVersion 11 (some "3.3.0") none [] false false true
            [mkBuild (bs 16), mkBuild (bs 17), mkBuild (bs 18)] ] } ]

/-- `manage.py populate` issues all factory calls inside one
`no_autoflush` block and commits exactly once at the end; if any factory
call raises, the commit is never reached.  `factoriesOk` abstracts
whether every factory call succeeds; the first component counts commits. -/
def populate (factoriesOk : Bool) (bs : Nat → List Architecture)
    (db : List Package) : Nat × List Package :=
  if factoriesOk then (1, db ++ populateFixtures bs) else (0, db)

/-! ### `manage.py depopulate`

For each package the command calls `shutil.rmtree` on the package's data
directory and then `db.session.delete`; one `db.session.commit()` follows
the loop.  `rmtree` has no error handler, so a storage failure raises out
of the command.  The model records the primitive calls as events and
keeps the committed rows: staged deletes only take effect at the commit. -/

/-- One primitive call issued by `depopulate`, in program order. -/
inductive DbEvent where
  | rmtree (name : String)
  | rmtreeFailed (name : String)
  | dbDelete (name : String)
  | commit
deriving DecidableEq

/-- The event trace of `depopulate` and whether the commit was reached;
`ok` tells whether `shutil.rmtree` succeeds for a package's directory. -/
def depopulateEvents (ok : String → Bool) : List Package → List DbEvent × Bool
  | [] => ([DbEvent.commit], true)
  | p :: ps =>
      if ok p.name then
        let r := depopulateEvents ok ps
        (DbEvent.rmtree p.name :: DbEvent.dbDelete p.name :: r.1, r.2)
      else
        ([DbEvent.rmtreeFailed p.name], false)

/-- `manage.py depopulate`: the trace and the committed database rows
afterwards.  Staged deletes are atomic: they apply only if the single
commit at the end of the command runs. -/
def depopulate (ok : String → Bool) (db : List Package) :
    List DbEvent × List Package :=
  let r := depopulateEvents ok db
  (r.1, if r.2 then [] else db)

/-! ### `manage.py clean`

`clean` walks `DATA_PATH` with `os.walk(..., topdown=False)`; at every
visited directory it removes the files and then calls `os.rmdir` on each
subdirectory.  Bottom-up order means subdirectories are emptied before
their parent tries to remove them; the walk root itself is never passed
to `os.rmdir`.  `os.rmdir` fails on a non-empty directory, modelled by
`Except`. -/

/-- A directory entry: a plain file or a directory with its children. -/
inductive Entry where
  | file (name : String)
  | dir (name : String) (children : List Entry)

/-- The `os.rmdir` loop over the subdirectory names of one visited
directory: files were already removed at this root, an empty directory is
removed, a non-empty one makes `os.rmdir` raise. -/
def rmdirAll : List Entry → Except Unit Unit
  | [] => .ok ()
  | .file _ :: es => rmdirAll es
  | .dir _ [] :: es => rmdirAll es
  | .dir _ (_ :: _) :: _ => .error ()

mutual

/-- The `topdown=False` walk of one entry: subdirectories are processed
first (each is emptied), then the files of this directory are removed and
its subdirectories are removed with `os.rmdir`.  A plain file is left to
its parent's file loop. -/
def walkClean : Entry → Except Unit Entry
  | .file n => .ok (.file n)
  | .dir n children =>
      match walkCleanList children with
      | .error e => .error e
      | .ok cleaned =>
          match rmdirAll cleaned with
          | .error e => .error e
          | .ok _ => .ok (.dir n [])

/-- The walk applied to each child in turn. -/
def walkCleanList : List Entry → Except Unit (List Entry)
  | [] => .ok []
  | e :: es =>
      match walkClean e with
      | .error err => .error err
      | .ok e2 =>
          match walkCleanList es with
          | .error err => .error err
          | .ok es2 => .ok (e2 :: es2)

end

/-- A second concrete non-wildcard architecture for disjoint-coverage runs. -/
def armv7A : Architecture := { identifier := "armv7", is_wildcard := false }

/-- Concrete registry with the wildcard and `x64`. -/
def regFix : List Architecture := [noarchA, x64A]

/-- The claim's regression Version 10: the smaller `version` with the
larger display string. -/
def crossV10 : Version :=
  mkVersion 10 (some "13.0") none [] false false false [mkBuild [x64A]]

/-- The claim's regression Version 11: the larger `version` with the
smaller display string. -/
def crossV11 : Version :=
  mkVersion 11 (some "12.0") none [] false false false [mkBuild [x64A]]

/-- The regression Package whose `version` and `upstream_version`
orderings disagree. -/
def crossPkg : Package := { name := "p", versions := [crossV10, crossV11] }

/-- What the bottom-up walk leaves of an entry before its parent's turn:
files survive until the parent's file loop, directories are emptied. -/
def flattenTop : Entry → Entry
  | .file n => .file n
  | .dir n _ => .dir n []

/-- The per-package primitive calls of a fully successful `depopulate`
loop: for each package its storage is removed, then its row delete is
staged. -/
def cascadeEvents : List Package → List DbEvent
  | [] => []
  | p :: ps => DbEvent.rmtree p.name :: DbEvent.dbDelete p.name :: cascadeEvents ps

/-- A minimal concrete package for concrete runs of the commands. -/
def examplePkgA : Package := { name := "a", versions := [] }

/-- A second minimal concrete package. -/
def examplePkgB : Package := { name := "b", versions := [] }

/-- The versions are reordered only, never created or dropped, by the
descending insertion. -/
theorem mem_insertDesc {v w : Version} {vs : List Version} :
    w ∈ insertDesc v vs ↔ w = v ∨ w ∈ vs := by
  induction vs with
  | nil => simp [insertDesc]
  | cons u us ih =>
      unfold insertDesc
      by_cases h : u.version ≤ v.version
      · simp [h]
      · simp only [h, if_false, List.mem_cons, ih]
        tauto

/-- Sorting preserves the candidate set. -/
theorem mem_sortDesc {w : Version} {vs : List Version} :
    w ∈ sortDesc vs ↔ w ∈ vs := by
  induction vs with
  | nil => simp [sortDesc]
  | cons u us ih => simp [sortDesc, mem_insertDesc, ih]

/-- The candidate order of selection step 3: descending `version`. -/
def DescSorted (l : List Version) : Prop :=
  l.Pairwise (fun a b => b.version ≤ a.version)

/-- Insertion keeps the descending order. -/
theorem descSorted_insertDesc {v : Version} {l : List Version}
    (h : DescSorted l) : DescSorted (insertDesc v l) := by
  induction l with
  | nil => exact List.pairwise_singleton _ _
  | cons u us ih =>
      rw [DescSorted, List.pairwise_cons] at h
      unfold insertDesc
      by_cases hc : u.version ≤ v.version
      · rw [if_pos hc, DescSorted, List.pairwise_cons]
        constructor
        · intro w hw
          rcases List.mem_cons.mp hw with rfl | hw2
          · exact hc
          · exact le_trans (h.1 w hw2) hc
        · rw [List.pairwise_cons]
          exact h
      · rw [if_neg hc, DescSorted, List.pairwise_cons]
        constructor
        · intro w hw
          rcases mem_insertDesc.mp hw with rfl | hw2
          · omega
          · exact h.1 w hw2
        · exact ih h.2

/-- The sorted candidate list is in descending `version` order. -/
theorem descSorted_sortDesc (vs : List Version) : DescSorted (sortDesc vs) := by
  induction vs with
  | nil => exact List.Pairwise.nil
  | cons u us ih => exact descSorted_insertDesc ih

/-- The scan of step 4 fails exactly when no candidate offers a Build. -/
theorem firstMatch_eq_none {a : Architecture} {i r : Option (List String)}
    {l : List Version} :
    firstMatch a i r l = none ↔ ∀ v ∈ l, pickBuild a i r v = none := by
  induction l with
  | nil => simp [firstMatch]
  | cons u us ih =>
      unfold firstMatch
      cases hu : pickBuild a i r u with
      | some b =>
          constructor
          · intro h
            cases h
          · intro h
            have := h u (by simp)
            rw [hu] at this
            cases this
      | none =>
          simp only [ih]
          constructor
          · intro h w hw
            rcases List.mem_cons.mp hw with rfl | hw2
            · exact hu
            · exact h w hw2
          · intro h w hw
            exact h w (List.mem_cons_of_mem _ hw)

/-- A successful scan returns a candidate of the list together with the
Build that `pickBuild` chose for it. -/
theorem firstMatch_mem_pick {a : Architecture} {i r : Option (List String)}
    {l : List Version} {v : Version} {b : Build}
    (h : firstMatch a i r l = some (v, b)) :
    v ∈ l ∧ pickBuild a i r v = some b := by
  induction l with
  | nil => cases h
  | cons u us ih =>
      unfold firstMatch at h
      cases hu : pickBuild a i r u with
      | some b2 =>
          rw [hu] at h
          simp only [Option.some.injEq, Prod.mk.injEq] at h
          obtain ⟨rfl, rfl⟩ := h
          exact ⟨by simp, hu⟩
      | none =>
          rw [hu] at h
          have := ih h
          exact ⟨List.mem_cons_of_mem _ this.1, this.2⟩

/-- On a descending candidate list, the scan's winner has the greatest
`version` among all candidates for which `pickBuild` succeeds. -/
theorem firstMatch_max {a : Architecture} {i r : Option (List String)}
    {l : List Version} {v : Version} {b : Build}
    (hs : DescSorted l) (h : firstMatch a i r l = some (v, b)) :
    ∀ w ∈ l, pickBuild a i r w ≠ none → w.version ≤ v.version := by
  induction l with
  | nil => cases h
  | cons u us ih =>
      rw [DescSorted, List.pairwise_cons] at hs
      unfold firstMatch at h
      cases hu : pickBuild a i r u with
      | some b2 =>
          rw [hu] at h
          simp only [Option.some.injEq, Prod.mk.injEq] at h
          obtain ⟨rfl, rfl⟩ := h
          intro w hw _
          rcases List.mem_cons.mp hw with rfl | hw2
          · exact le_refl _
          · exact hs.1 w hw2
      | none =>
          rw [hu] at h
          intro w hw hwp
          rcases List.mem_cons.mp hw with rfl | hw2
          · exact absurd hu hwp
          · exact ih hs.2 h w hw2 hwp

/-- The scan succeeds as soon as one candidate offers a Build. -/
theorem firstMatch_isSome {a : Architecture} {i r : Option (List String)}
    {l : List Version} (h : ∃ v ∈ l, pickBuild a i r v ≠ none) :
    ∃ vb, firstMatch a i r l = some vb := by
  cases hm : firstMatch a i r l with
  | some vb => exact ⟨vb, rfl⟩
  | none =>
      obtain ⟨v, hv, hne⟩ := h
      exact absurd (firstMatch_eq_none.mp hm v hv) hne

/-- With no dependency sets supplied the gate is open and the pick is the
plain first active matching Build. -/
theorem pickBuild_none_none (a : Architecture) (v : Version) :
    pickBuild a none none v
      = v.builds.find? (fun b => b.active && b.matches a) := by
  simp [pickBuild, depsOk]

/-- Version eligibility as solvability of the Build search. -/
theorem hasActiveMatch_iff_find? (v : Version) (a : Architecture) :
    v.hasActiveMatch a = true ↔
      v.builds.find? (fun b => b.active && b.matches a) ≠ none := by
  rw [Version.hasActiveMatch, List.any_eq_true]
  constructor
  · rintro ⟨b, hb, hpb⟩ hn
    rw [List.find?_eq_none] at hn
    exact (hn b hb) hpb
  · intro h
    cases hf : v.builds.find? (fun b => b.active && b.matches a) with
    | none => exact absurd hf h
    | some b =>
        exact ⟨b, List.mem_of_find?_eq_some hf, by simpa using List.find?_some hf⟩

/-- A `none` ceiling filters nothing (step 2 of the selector). -/
theorem filter_underCeiling_none (vs : List Version) :
    vs.filter (underCeiling none) = vs := by
  induction vs with
  | nil => rfl
  | cons v vs ih => simp [List.filter_cons, underCeiling, ih]

/-- An ok `resolveBuild` (no ceiling, no dependency sets) returns an
active matching Build of a Version of the resolved Package, and no other
eligible Version has a greater `version` integer. -/
theorem resolveBuild_ok_correct
    (reg : List Architecture) (repo : List Package) (pname archId : String)
    (p : Package) (arch : Architecture) (v : Version) (b : Build)
    (hp : repo.find? (fun q => q.name == pname) = some p)
    (ha : findArch reg archId = .ok arch)
    (h : resolveBuild reg repo pname archId none none none = .ok (v, b)) :
    v ∈ p.versions ∧ b ∈ v.builds ∧ b.active = true ∧ b.matches arch = true ∧
      ∀ w ∈ p.versions, w.hasActiveMatch arch = true → w.version ≤ v.version := by
  unfold resolveBuild at h
  rw [hp, ha] at h
  simp only [filter_underCeiling_none] at h
  cases hm : firstMatch arch none none (sortDesc p.versions) with
  | none =>
      rw [hm] at h
      cases h
  | some vb =>
      rw [hm] at h
      have hvb : vb = (v, b) := by
        injection h
      subst hvb
      obtain ⟨hmem, hpick⟩ := firstMatch_mem_pick hm
      rw [pickBuild_none_none] at hpick
      have hb : b ∈ v.builds := List.mem_of_find?_eq_some hpick
      have hprop : (b.active && b.matches arch) = true := by
        simpa using List.find?_some hpick
      rw [Bool.and_eq_true] at hprop
      refine ⟨mem_sortDesc.mp hmem, hb, hprop.1, hprop.2, ?_⟩
      intro w hw hwa
      refine firstMatch_max (descSorted_sortDesc p.versions) hm w
        (mem_sortDesc.mpr hw) ?_
      rw [pickBuild_none_none]
      exact (hasActiveMatch_iff_find? w arch).mp hwa

/-- `resolveBuild` (no ceiling, no dependency sets) succeeds whenever some
Version of the Package has an active matching Build. -/
theorem resolveBuild_ok_exists
    (reg : List Architecture) (repo : List Package) (pname archId : String)
    (p : Package) (arch : Architecture)
    (hp : repo.find? (fun q => q.name == pname) = some p)
    (ha : findArch reg archId = .ok arch)
    (hex : ∃ w ∈ p.versions, w.hasActiveMatch arch = true) :
    ∃ v b, resolveBuild reg repo pname archId none none none = .ok (v, b) := by
  obtain ⟨w, hw, hwa⟩ := hex
  have hpick : pickBuild arch none none w ≠ none := by
    rw [pickBuild_none_none]
    exact (hasActiveMatch_iff_find? w arch).mp hwa
  obtain ⟨vb, hm⟩ := firstMatch_isSome ⟨w, mem_sortDesc.mpr hw, hpick⟩
  refine ⟨vb.1, vb.2, ?_⟩
  unfold resolveBuild
  rw [hp, ha]
  simp only [filter_underCeiling_none, hm]

/-- When every Version has lost its active matching Builds but some
matching Build still exists (inactive), `resolveBuild` (no ceiling, no
dependency sets) fails with the `AllInactive` reason. -/
theorem resolveBuild_all_inactive
    (reg : List Architecture) (repo : List Package) (pname archId : String)
    (p : Package) (arch : Architecture)
    (hp : repo.find? (fun q => q.name == pname) = some p)
    (ha : findArch reg archId = .ok arch)
    (hno : ∀ w ∈ p.versions, w.hasActiveMatch arch = false)
    (hsome : ∃ w ∈ p.versions, ∃ b2 ∈ w.builds, b2.matches arch = true) :
    resolveBuild reg repo pname archId none none none
      = .error (.NoCompatibleBuildError .AllInactive) := by
  have hfm : firstMatch arch none none (sortDesc p.versions) = none := by
    rw [firstMatch_eq_none]
    intro w hw
    rw [pickBuild_none_none]
    cases hf : w.builds.find? (fun b => b.active && b.matches arch) with
    | none => rfl
    | some b2 =>
        have hwa := hno w (mem_sortDesc.mp hw)
        rw [← Bool.not_eq_true] at hwa
        exact absurd ((hasActiveMatch_iff_find? w arch).mpr (by rw [hf]; intro hc; cases hc)) hwa
  have h1 : p.versions.any (fun u => u.hasActiveMatch arch) = false := by
    rw [Bool.eq_false_iff]
    intro hcontra
    rw [List.any_eq_true] at hcontra
    obtain ⟨w, hw, hww⟩ := hcontra
    rw [hno w hw] at hww
    cases hww
  have h2 : p.versions.any (fun u => u.builds.any (fun b => b.matches arch)) = true := by
    rw [List.any_eq_true]
    obtain ⟨w, hw, b2, hb2, hm2⟩ := hsome
    exact ⟨w, hw, List.any_eq_true.mpr ⟨b2, hb2, hm2⟩⟩
  unfold resolveBuild
  rw [hp, ha]
  simp only [filter_underCeiling_none, hfm, failReason, h1, h2]
  rfl

/-! ### Irrelevance of `upstream_version`

Reassigning every `upstream_version` in the repository — by an arbitrary
per-Version choice `f` — changes nothing about which Version and Build
`resolveBuild` selects. -/

/-- Reassign a Version's display string, all other fields untouched. -/
def reUpV (f : Version → Option String) (v : Version) : Version :=
  { v with upstream_version := f v }

/-- Reassign the display strings of all Versions of a Package. -/
def reUpP (f : Version → Option String) (p : Package) : Package :=
  { p with versions := p.versions.map (reUpV f) }

/-- Reassign the display strings across the whole repository. -/
def reUpRepo (f : Version → Option String) (repo : List Package) : List Package :=
  repo.map (reUpP f)

/-- Package lookup commutes with any name-preserving rewrite of packages. -/
theorem find?_map_name (g : Package → Package) (hg : ∀ p, (g p).name = p.name)
    (repo : List Package) (pname : String) :
    (repo.map g).find? (fun p => p.name == pname)
      = (repo.find? (fun p => p.name == pname)).map g := by
  induction repo with
  | nil => rfl
  | cons p ps ih =>
      simp only [List.map_cons, List.find?_cons, hg p]
      cases hpb : (p.name == pname) with
      | true => rfl
      | false => exact ih

/-- The ceiling filter commutes with display-string reassignment. -/
theorem filter_underCeiling_map (f : Version → Option String) (c : Option Nat)
    (vs : List Version) :
    (vs.map (reUpV f)).filter (underCeiling c)
      = (vs.filter (underCeiling c)).map (reUpV f) := by
  induction vs with
  | nil => rfl
  | cons v vs ih =>
      have hsame : underCeiling c (reUpV f v) = underCeiling c v := rfl
      rw [List.map_cons, List.filter_cons, List.filter_cons, hsame]
      cases underCeiling c v with
      | true => rw [if_pos rfl, if_pos rfl, List.map_cons, ih]
      | false => simp only [Bool.false_eq_true, if_false, ih]

/-- Insertion commutes with display-string reassignment. -/
theorem insertDesc_map (f : Version → Option String) (v : Version)
    (l : List Version) :
    insertDesc (reUpV f v) (l.map (reUpV f)) = (insertDesc v l).map (reUpV f) := by
  induction l with
  | nil => rfl
  | cons u us ih =>
      simp only [List.map_cons, insertDesc]
      have h1 : (reUpV f u).version = u.version := rfl
      have h2 : (reUpV f v).version = v.version := rfl
      rw [h1, h2]
      by_cases hc : u.version ≤ v.version
      · rw [if_pos hc, if_pos hc]
        rfl
      · rw [if_neg hc, if_neg hc, List.map_cons, ih]

/-- Sorting commutes with display-string reassignment. -/
theorem sortDesc_map (f : Version → Option String) (l : List Version) :
    sortDesc (l.map (reUpV f)) = (sortDesc l).map (reUpV f) := by
  induction l with
  | nil => rfl
  | cons u us ih => rw [List.map_cons, sortDesc, sortDesc, ih, insertDesc_map]

/-- The scan commutes with display-string reassignment. -/
theorem firstMatch_map (f : Version → Option String) (a : Architecture)
    (i r : Option (List String)) (l : List Version) :
    firstMatch a i r (l.map (reUpV f))
      = (firstMatch a i r l).map (fun vb => (reUpV f vb.1, vb.2)) := by
  induction l with
  | nil => rfl
  | cons v vs ih =>
      simp only [List.map_cons, firstMatch]
      have hsame : pickBuild a i r (reUpV f v) = pickBuild a i r v := rfl
      rw [hsame]
      cases pickBuild a i r v with
      | some b => rfl
      | none => exact ih

/-- The failure reason ignores display strings. -/
theorem failReason_map (f : Version → Option String) (a : Architecture)
    (i r : Option (List String)) (l : List Version) :
    failReason a i r (l.map (reUpV f)) = failReason a i r l := by
  unfold failReason
  have h1 : (l.map (reUpV f)).any (fun v => v.hasActiveMatch a)
      = l.any (fun v => v.hasActiveMatch a) := by
    rw [List.any_map]
    rfl
  have h2 : (l.map (reUpV f)).any (fun v => v.builds.any (fun b => b.matches a))
      = l.any (fun v => v.builds.any (fun b => b.matches a)) := by
    rw [List.any_map]
    rfl
  rw [h1, h2]

/-- `resolveBuild` commutes with any reassignment of `upstream_version`:
the display string never influences the selection. -/
theorem resolveBuild_reUp (f : Version → Option String)
    (reg : List Architecture) (repo : List Package) (pname archId : String)
    (ceiling : Option Nat) (installed running : Option (List String)) :
    resolveBuild reg (reUpRepo f repo) pname archId ceiling installed running
      = (resolveBuild reg repo pname archId ceiling installed running).map
          (fun vb => (reUpV f vb.1, vb.2)) := by
  unfold resolveBuild
  rw [reUpRepo, find?_map_name (reUpP f) (fun p => rfl)]
  cases hp : repo.find? (fun p => p.name == pname) with
  | none => rfl
  | some p =>
      simp only [Option.map_some']
      cases ha : findArch reg archId with
      | error e => rfl
      | ok a =>
          have hv : (reUpP f p).versions = p.versions.map (reUpV f) := rfl
          simp only [hv, filter_underCeiling_map, sortDesc_map, firstMatch_map,
            failReason_map]
          cases firstMatch a installed running
              (sortDesc (p.versions.filter (underCeiling ceiling))) with
          | some vb => rfl
          | none => rfl

/-! ## Theorems -/

/-- C4: `Build.matches` is true exactly when the requested architecture is
a member of the Build's architecture set or the set contains the wildcard;
in particular a Build whose set contains the wildcard matches every
Architecture value, including ones registered after the Build was created. -/
theorem matches_characterization :
    (∀ (b : Build) (a : Architecture),
       b.matches a = true ↔
         (a ∈ b.architectures ∨ ∃ w ∈ b.architectures, w.is_wildcard = true)) ∧
    (∀ (b : Build) (a : Architecture),
       (∃ w ∈ b.architectures, w.is_wildcard = true) → b.matches a = true) := by
  constructor
  · intro b a
    simp [Build.matches, List.any_eq_true]
  · intro b a h
    simp [Build.matches, List.any_eq_true]
    exact Or.inr h

/-- C4 witness: a wildcard (`noarch`) Build matches an architecture that
exists in no registry at all. -/
theorem matches_characterization_witness :
    (mkBuild [noarchA]).matches { identifier := "evansport", is_wildcard := false } = true :=
  matches_characterization.2 (mkBuild [noarchA]) _ ⟨noarchA, by decide, by decide⟩

/-- C5: `add_build` rejects a Build whose coverage overlaps the coverage
of an existing active Build of the same Version with
`DuplicateArchitectureCoverageError` and produces no new state; with no
such overlap the Build is appended.  Concretely, an `armv7` Build coexists
with an active `x64` Build while a second `x64` Build is rejected. -/
theorem add_build_coverage :
    (∀ (v : Version) (b : Build),
       v.builds.any (fun eb => eb.active && eb.covers b.architectures) = true →
       v.add_build b = .error .DuplicateArchitectureCoverageError) ∧
    (∀ (v : Version) (b : Build),
       v.builds.any (fun eb => eb.active && eb.covers b.architectures) = false →
       v.add_build b = .ok { v with builds := v.builds ++ [b] }) ∧
    (mkVersion 1 none none [] false false false [mkBuild [x64A]]).add_build
        (mkBuild [armv7A])
      = .ok (mkVersion 1 none none [] false false false
              [mkBuild [x64A], mkBuild [armv7A]]) ∧
    (mkVersion 1 none none [] false false false [mkBuild [x64A]]).add_build
        (mkBuild [x64A])
      = .error .DuplicateArchitectureCoverageError := by
  refine ⟨?_, ?_, by rfl, by rfl⟩
  · intro v b h
    simp [Version.add_build, h]
  · intro v b h
    simp [Version.add_build, h]

/-- C5 witness: the overlap rejection and the disjoint acceptance at
concrete inputs, through `add_build_coverage`. -/
theorem add_build_coverage_witness :
    (mkVersion 2 none none [] false false false [mkBuild [x64A]]).add_build
        (mkBuild [x64A, armv7A])
      = .error .DuplicateArchitectureCoverageError ∧
    (mkVersion 2 none none [] false false false [mkBuild [x64A]]).add_build
        (mkBuild [armv7A])
      = .ok { mkVersion 2 none none [] false false false [mkBuild [x64A]] with
              builds := [mkBuild [x64A]] ++ [mkBuild [armv7A]] } :=
  ⟨add_build_coverage.1 _ _ (by decide), add_build_coverage.2.1 _ _ (by decide)⟩

/-- C2: `add_version` rejects an already-used `version` integer with
`DuplicateVersionNumberError`, pairwise distinctness of the `version`
integers of a Package is preserved by a successful `add_version`, a
Version with the larger integer is the newer one under `compare_to`
irrespective of `upstream_version`, and `add_build` never changes a
Version's integer. -/
theorem version_uniqueness :
    (∀ (p : Package) (v : Version),
       p.versions.any (fun w => w.version == v.version) = true →
       p.add_version v = .error .DuplicateVersionNumberError) ∧
    (∀ (p : Package) (v : Version) (p2 : Package),
       p.versionsDistinct → p.add_version v = .ok p2 → p2.versionsDistinct) ∧
    (∀ v w : Version, w.version < v.version → v.compare_to w = .ok .gt) ∧
    (∀ (v : Version) (b : Build) (v2 : Version),
       v.add_build b = .ok v2 → v2.version = v.version) := by
  refine ⟨?_, ?_, ?_, ?_⟩
  · intro p v h
    simp [Package.add_version, h]
  · intro p v p2 hd h
    unfold Package.add_version at h
    by_cases hc : p.versions.any (fun w => w.version == v.version) = true
    · simp [hc] at h
    · rw [if_neg hc] at h
      cases h
      unfold Package.versionsDistinct at hd ⊢
      rw [List.pairwise_append]
      refine ⟨hd, by simp, ?_⟩
      intro a ha w hw
      rw [List.mem_singleton] at hw
      subst hw
      intro heq
      exact hc (List.any_eq_true.mpr ⟨a, ha, by simp [heq]⟩)
  · intro v w h
    unfold Version.compare_to
    rw [if_neg (by omega), if_pos h]
  · intro v b v2 h
    unfold Version.add_build at h
    by_cases hc : v.builds.any (fun eb => eb.active && eb.covers b.architectures) = true
    · simp [hc] at h
    · rw [if_neg hc] at h
      cases h
      rfl

/-- C2 witness: duplicate rejection, distinctness preservation and
ordering at concrete inputs, through `version_uniqueness`. -/
theorem version_uniqueness_witness :
    ({ name := "a", versions := [mkVersion 3 none none [] false false false []] }
        : Package).add_version (mkVersion 3 (some "x") none [] false false false [])
      = .error .DuplicateVersionNumberError ∧
    (mkVersion 5 (some "1.0") none [] false false false []).compare_to
        (mkVersion 4 (some "9.9") none [] false false false []) = .ok .gt :=
  ⟨version_uniqueness.1 _ _ (by decide),
   version_uniqueness.2.2.1 _ _ (by decide)⟩

/-- C8: after the database-side cascade removal of a Package no Version or
Build of it remains (no row with its name survives), and every subsequent
`resolveBuild` naming that package fails with `UnknownPackageError`. -/
theorem deletePackage_resolve_unknown :
    ∀ (repo : List Package) (pname : String) (reg : List Architecture)
      (archId : String) (ceiling : Option Nat)
      (installed running : Option (List String)),
    (deletePackage repo pname).all (fun p => !(p.name == pname)) = true ∧
    resolveBuild reg (deletePackage repo pname) pname archId ceiling
        installed running = .error .UnknownPackageError := by
  intro repo pname reg archId ceiling installed running
  have hall : (deletePackage repo pname).all (fun p => !(p.name == pname)) = true := by
    rw [List.all_eq_true]
    intro p hp
    exact (List.mem_filter.mp hp).2
  refine ⟨hall, ?_⟩
  have hfind : (deletePackage repo pname).find? (fun p => p.name == pname) = none := by
    rw [List.find?_eq_none]
    intro p hp
    have := (List.mem_filter.mp hp).2
    simp at this
    simp [this]
  unfold resolveBuild
  rw [hfind]

/-- C9: `populate` commits exactly once and only at the end: on success it
adds exactly the four fixture Packages `nzbget`, `sickbeard`, `git` and
`bitlbee` with the version integers, per-version build counts, activity
and the `noarch` coverage of sickbeard taken from `manage.py`; if any
factory call raises, nothing of the fixture set is committed. -/
theorem populate_fixture_shape :
    ∀ (bs : Nat → List Architecture) (db : List Package),
    populate true bs db = (1, db ++ populateFixtures bs) ∧
    populate false bs db = (0, db) ∧
    (populateFixtures bs).map Package.name
      = ["nzbget", "sickbeard", "git", "bitlbee"] ∧
    (populateFixtures bs).map (fun p => p.versions.map (fun v => v.version))
      = [[10, 11], [3, 4], [3, 4], [9, 10, 11]] ∧
    (populateFixtures bs).map
        (fun p => p.versions.map (fun v => v.builds.length))
      = [[2, 2], [1, 1], [3, 3], [3, 3, 3]] ∧
    (populateFixtures bs).all
        (fun p => p.versions.all (fun v => v.builds.all (fun b => b.active)))
      = true ∧
    (populateFixtures bs).map
        (fun p => p.versions.map (fun v => v.builds.map (fun b => b.architectures)))
      = [ [[bs 0, bs 1], [bs 2, bs 3]],
          [[[noarchA]], [[noarchA]]],
          [[bs 4, bs 5, bs 6], [bs 7, bs 8, bs 9]],
          [[bs 10, bs 11, bs 12], [bs 13, bs 14, bs 15], [bs 16, bs 17, bs 18]] ] := by
  intro bs db
  refine ⟨rfl, rfl, by rfl, by rfl,
    by simp [populateFixtures, mkVersion, mkBuild], by rfl, by rfl⟩

/-- C1: an ok `resolveBuild` returns an active matching Build of the
eligible Version with the greatest `version` integer (strictly greatest
under the per-Package uniqueness invariant); reassigning every
`upstream_version` in the repository never changes the selection; and the
regression Package with Versions `(version=10, upstream="13.0")` and
`(version=11, upstream="12.0")` resolves to `version=11`. -/
theorem resolveBuild_newest_version :
    (∀ (reg : List Architecture) (repo : List Package) (pname archId : String)
       (p : Package) (arch : Architecture) (v : Version) (b : Build),
       repo.find? (fun q => q.name == pname) = some p →
       findArch reg archId = .ok arch →
       resolveBuild reg repo pname archId none none none = .ok (v, b) →
       v ∈ p.versions ∧ b ∈ v.builds ∧ b.active = true ∧ b.matches arch = true ∧
         v.hasActiveMatch arch = true ∧
         (∀ w ∈ p.versions, w.hasActiveMatch arch = true → w.version ≤ v.version) ∧
         (p.versionsDistinct →
           ∀ w ∈ p.versions, w.hasActiveMatch arch = true → w ≠ v →
             w.version < v.version)) ∧
    (∀ (f : Version → Option String) (reg : List Architecture)
       (repo : List Package) (pname archId : String) (ceiling : Option Nat)
       (installed running : Option (List String)),
       resolveBuild reg (reUpRepo f repo) pname archId ceiling installed running
         = (resolveBuild reg repo pname archId ceiling installed running).map
             (fun vb => (reUpV f vb.1, vb.2))) ∧
    resolveBuild [x64A] [crossPkg] "p" "x64" none none none
      = .ok (crossV11, mkBuild [x64A]) := by
  refine ⟨?_, resolveBuild_reUp, by rfl⟩
  intro reg repo pname archId p arch v b hp ha h
  obtain ⟨h1, h2, h3, h4, h5⟩ :=
    resolveBuild_ok_correct reg repo pname archId p arch v b hp ha h
  have hact : v.hasActiveMatch arch = true :=
    List.any_eq_true.mpr ⟨b, h2, by simp [h3, h4]⟩
  refine ⟨h1, h2, h3, h4, hact, h5, ?_⟩
  intro hdist w hw hwa hne
  have hle := h5 w hw hwa
  unfold Package.versionsDistinct at hdist
  have hsym : Symmetric (fun a b : Version => a.version ≠ b.version) :=
    fun x y hxy e => hxy e.symm
  have hvne : w.version ≠ v.version :=
    List.Pairwise.forall hsym hdist hw h1 hne
  omega

/-- C1 witness: the ordering statement instantiated on the crossed
regression fixture, all hypotheses discharged by computation. -/
theorem resolveBuild_newest_version_witness :
    crossV11 ∈ crossPkg.versions ∧ mkBuild [x64A] ∈ crossV11.builds ∧
      (mkBuild [x64A]).active = true ∧ (mkBuild [x64A]).matches x64A = true ∧
      crossV11.hasActiveMatch x64A = true ∧
      (∀ w ∈ crossPkg.versions, w.hasActiveMatch x64A = true →
        w.version ≤ crossV11.version) ∧
      (crossPkg.versionsDistinct →
        ∀ w ∈ crossPkg.versions, w.hasActiveMatch x64A = true → w ≠ crossV11 →
          w.version < crossV11.version) :=
  resolveBuild_newest_version.1 [x64A] [crossPkg] "p" "x64" crossPkg x64A
    crossV11 (mkBuild [x64A]) (by rfl) (by rfl) (by rfl)

/-- C3 counterexample: the fixture Package `sickbeard` of
`manage.py populate` carries the package dependency `"git"` on both of its
Versions, so `resolveBuild` with empty `installedPackages` and empty
`runningServices` fails with `DependencyUnmet` instead of succeeding as
the claim states. -/
theorem sickbeard_empty_installed_fails :
    resolveBuild regFix (populateFixtures (fun _ => [x64A])) "sickbeard" "x64"
        none (some []) (some [])
      = .error (.NoCompatibleBuildError .DependencyUnmet) := by rfl

/-- C3 amended: the fixture `sickbeard` Versions carry
`service_dependencies=[]` and the package dependency `"git"`, so
`resolveBuild` with empty `runningServices` succeeds precisely when
`installedPackages` contains `"git"` (returning the newest Version 4 and
its `noarch` Build) and fails `DependencyUnmet` on an empty set; an
absent package dependency and an empty service list are trivially
satisfied, as the fixture Package `git` shows with both sets empty. -/
theorem sickbeard_dependency_gate :
    resolveBuild regFix (populateFixtures (fun _ => [x64A])) "sickbeard" "x64"
        none (some ["git"]) (some [])
      = .ok (mkVersion 4 (some "20140702") (some "git") [] false false true
              [mkBuild [noarchA]], mkBuild [noarchA]) ∧
    resolveBuild regFix (populateFixtures (fun _ => [x64A])) "sickbeard" "x64"
        none (some []) (some [])
      = .error (.NoCompatibleBuildError .DependencyUnmet) ∧
    resolveBuild regFix (populateFixtures (fun _ => [x64A])) "git" "x64"
        none (some []) (some [])
      = .ok (mkVersion 4 (some "2.1.2") none [] false false false
              [mkBuild [x64A], mkBuild [x64A], mkBuild [x64A]], mkBuild [x64A]) :=
  ⟨rfl, rfl, rfl⟩

/-- `os.rmdir` succeeds on every subdirectory left by the bottom-up walk,
since each has already been emptied. -/
theorem rmdirAll_flatten (l : List Entry) : rmdirAll (l.map flattenTop) = .ok () := by
  induction l with
  | nil => rfl
  | cons e es ih => cases e <;> simp [flattenTop, rmdirAll, ih]

mutual

/-- The walk of any entry succeeds and leaves files untouched and
directories emptied. -/
theorem walkClean_ok : (e : Entry) → walkClean e = .ok (flattenTop e)
  | .file _ => rfl
  | .dir n children => by
      simp [walkClean, walkCleanList_ok children, rmdirAll_flatten, flattenTop]

/-- The walk of a child list succeeds on every child. -/
theorem walkCleanList_ok : (l : List Entry) → walkCleanList l = .ok (l.map flattenTop)
  | [] => rfl
  | e :: es => by
      simp [walkCleanList, walkClean_ok e, walkCleanList_ok es]

end

/-- C10: the `clean` command removes every file and every subdirectory
under `DATA_PATH` (the result has no children, and no `os.rmdir` call
fails), but the `DATA_PATH` directory itself is never removed: it is still
present under its own name when the command completes. -/
theorem clean_preserves_data_path :
    ∀ (dpName : String) (children : List Entry),
      walkClean (.dir dpName children) = .ok (.dir dpName []) := by
  intro dpName children
  rw [walkClean_ok (.dir dpName children)]
  rfl

/-- The success flag of the `depopulate` loop is exactly "storage removal
succeeded for every package". -/
theorem depopulateEvents_snd (ok : String → Bool) (db : List Package) :
    (depopulateEvents ok db).2 = db.all (fun p => ok p.name) := by
  induction db with
  | nil => rfl
  | cons p ps ih => by_cases hp : ok p.name <;> simp [depopulateEvents, hp, ih]

/-- On a fully successful run the trace is the per-package storage/delete
pairs followed by the single commit. -/
theorem depopulateEvents_success (ok : String → Bool) (db : List Package)
    (h : db.all (fun p => ok p.name) = true) :
    depopulateEvents ok db = (cascadeEvents db ++ [DbEvent.commit], true) := by
  induction db with
  | nil => rfl
  | cons p ps ih =>
      rw [List.all_cons, Bool.and_eq_true] at h
      simp [depopulateEvents, h.1, ih h.2, cascadeEvents]

/-- When some storage removal fails the commit never appears in the trace. -/
theorem commit_not_mem_of_fail (ok : String → Bool) (db : List Package)
    (h : (depopulateEvents ok db).2 = false) :
    DbEvent.commit ∉ (depopulateEvents ok db).1 := by
  induction db with
  | nil => simp [depopulateEvents] at h
  | cons p ps ih =>
      by_cases hp : ok p.name
      · simp [depopulateEvents, hp] at h ⊢
        exact ih h
      · simp [depopulateEvents, hp]

/-- The commit event never occurs among the per-package calls. -/
theorem commit_not_mem_cascadeEvents (db : List Package) :
    DbEvent.commit ∉ cascadeEvents db := by
  induction db with
  | nil => simp [cascadeEvents]
  | cons p ps ih => simp [cascadeEvents, ih]

/-- C7 amended: `depopulate` removes the stored artifact bytes of each
Package before staging its row delete and commits all row deletes in one
transaction at the end (the single commit is the last event); but a
failure to remove stored bytes is not caught: it aborts the command, the
commit never runs and no database row is removed. -/
theorem depopulate_two_phase :
    (∀ (ok : String → Bool) (db : List Package),
       db.all (fun p => ok p.name) = true →
       depopulate ok db = (cascadeEvents db ++ [DbEvent.commit], [])) ∧
    (∀ db : List Package, DbEvent.commit ∉ cascadeEvents db) ∧
    (∀ (ok : String → Bool) (db : List Package),
       db.all (fun p => ok p.name) = false →
       DbEvent.commit ∉ (depopulate ok db).1 ∧ (depopulate ok db).2 = db) := by
  refine ⟨?_, commit_not_mem_cascadeEvents, ?_⟩
  · intro ok db h
    simp [depopulate, depopulateEvents_success ok db h]
  · intro ok db h
    have hsnd : (depopulateEvents ok db).2 = false := by
      rw [depopulateEvents_snd, h]
    constructor
    · simpa [depopulate] using commit_not_mem_of_fail ok db hsnd
    · simp [depopulate, hsnd]

/-- C7 witness: the two-phase trace on a successful two-package run and
the abort on a failing one-package run, through `depopulate_two_phase`. -/
theorem depopulate_two_phase_witness :
    depopulate (fun _ => true) [examplePkgA, examplePkgB]
      = (cascadeEvents [examplePkgA, examplePkgB] ++ [DbEvent.commit], []) ∧
    (DbEvent.commit ∉ (depopulate (fun _ => false) [examplePkgA]).1 ∧
      (depopulate (fun _ => false) [examplePkgA]).2 = [examplePkgA]) :=
  ⟨depopulate_two_phase.1 _ _ (by rfl), depopulate_two_phase.2.2 _ _ (by rfl)⟩

/-- Elementwise description of a deactivation at one position. -/
theorem deactivateNth_getElem? (bs : List Build) (i j : Nat) :
    (deactivateNth bs i)[j]?
      = if j = i then bs[j]?.map Build.deactivate else bs[j]? := by
  induction bs generalizing i j with
  | nil => simp [deactivateNth]
  | cons b bs ih =>
      cases i with
      | zero =>
          cases j with
          | zero => simp [deactivateNth]
          | succ j => simp [deactivateNth]
      | succ i =>
          cases j with
          | zero => simp [deactivateNth]
          | succ j => simpa [deactivateNth] using ih i j

/-- Deactivation never deletes: the list length is unchanged. -/
theorem deactivateNth_length (bs : List Build) (i : Nat) :
    (deactivateNth bs i).length = bs.length := by
  induction bs generalizing i with
  | nil => rfl
  | cons b bs ih => cases i <;> simp [deactivateNth, ih]

/-- A Version loses its eligibility when its only active matching Build
is deactivated. -/
theorem deactivated_no_active_match (v : Version) (arch : Architecture)
    (b : Build) (i : Nat) (hidx : v.builds[i]? = some b)
    (honly : ∀ (j : Nat) (x : Build), v.builds[j]? = some x →
      (x.active && x.matches arch) = true → j = i) :
    ({ v with builds := deactivateNth v.builds i } : Version).hasActiveMatch arch
      = false := by
  show (deactivateNth v.builds i).any (fun x => x.active && x.matches arch) = false
  rw [List.any_eq_false]
  intro x hx
  obtain ⟨j, hj⟩ := List.mem_iff_getElem?.mp hx
  rw [deactivateNth_getElem?] at hj
  by_cases hji : j = i
  · rw [if_pos hji, hji, hidx] at hj
    simp only [Option.map_some', Option.some.injEq] at hj
    subst hj
    simp [Build.deactivate]
  · rw [if_neg hji] at hj
    intro hcontra
    exact hji (honly j x hj hcontra)

/-- `deactVersion` leaves Versions with a different number unchanged. -/
theorem deactVersion_ne (vnum i : Nat) (w : Version) (h : w.version ≠ vnum) :
    deactVersion vnum i w = w := by
  simp [deactVersion, h]

/-- `deactVersion` on the targeted number deactivates build `i`. -/
theorem deactVersion_eq (i : Nat) (w : Version) :
    deactVersion w.version i w = { w with builds := deactivateNth w.builds i } := by
  simp [deactVersion]

/-- The per-Package rewrite preserves the Package name. -/
theorem deactPackage_name (pname : String) (vnum i : Nat) (q : Package) :
    (deactPackage pname vnum i q).name = q.name := by
  by_cases h : (q.name == pname) = true <;> simp [deactPackage, h]

/-- The per-Package rewrite on the targeted Package maps its Versions. -/
theorem deactPackage_of_match (pname : String) (vnum i : Nat) (q : Package)
    (h : (q.name == pname) = true) :
    deactPackage pname vnum i q
      = { q with versions := q.versions.map (deactVersion vnum i) } := by
  simp [deactPackage, h]

/-- Core of the fall-through behaviour: after deactivating the only
active matching Build of the Version that `resolveBuild` currently
selects, resolution either returns the next-newest still-eligible Version
or fails with the `AllInactive` reason. -/
theorem deactivate_step
    (reg : List Architecture) (repo : List Package) (pname archId : String)
    (p : Package) (arch : Architecture) (v : Version) (b : Build) (i : Nat)
    (hp : repo.find? (fun q => q.name == pname) = some p)
    (ha : findArch reg archId = .ok arch)
    (h : resolveBuild reg repo pname archId none none none = .ok (v, b))
    (hdist : p.versionsDistinct)
    (hidx : v.builds[i]? = some b)
    (honly : ∀ (j : Nat) (x : Build), v.builds[j]? = some x →
      (x.active && x.matches arch) = true → j = i) :
    ((∃ w ∈ p.versions, w.version ≠ v.version ∧ w.hasActiveMatch arch = true) →
       ∃ v2 b2,
         resolveBuild reg (setBuildInactive repo pname v.version i) pname archId
             none none none = .ok (v2, b2) ∧
           v2.version < v.version ∧ v2.hasActiveMatch arch = true ∧
           ∀ w ∈ p.versions, w.version ≠ v.version →
             w.hasActiveMatch arch = true → w.version ≤ v2.version) ∧
    ((∀ w ∈ p.versions, w.version ≠ v.version → w.hasActiveMatch arch = false) →
       resolveBuild reg (setBuildInactive repo pname v.version i) pname archId
           none none none = .error (.NoCompatibleBuildError .AllInactive)) := by
  obtain ⟨hv, hbmem, hba, hbm, hmax⟩ :=
    resolveBuild_ok_correct reg repo pname archId p arch v b hp ha h
  have hpname : (p.name == pname) = true := by
    simpa using List.find?_some hp
  have hpD : deactPackage pname v.version i p
      = { p with versions := p.versions.map (deactVersion v.version i) } :=
    deactPackage_of_match pname v.version i p hpname
  have hpver : (deactPackage pname v.version i p).versions
      = p.versions.map (deactVersion v.version i) := by
    rw [hpD]
  have hp2 : (setBuildInactive repo pname v.version i).find?
        (fun q => q.name == pname)
      = some (deactPackage pname v.version i p) := by
    unfold setBuildInactive
    rw [find?_map_name _ (deactPackage_name pname v.version i), hp,
      Option.map_some']
  unfold Package.versionsDistinct at hdist
  have hsym : Symmetric (fun a b : Version => a.version ≠ b.version) :=
    fun x y hxy e => hxy e.symm
  have honlyV : ∀ w ∈ p.versions, w.version = v.version → w = v := by
    intro w hw hwv
    by_contra hne
    exact (List.Pairwise.forall hsym hdist hw hv hne) hwv
  have hvD : deactVersion v.version i v
      = { v with builds := deactivateNth v.builds i } := deactVersion_eq i v
  have hvDno : (deactVersion v.version i v).hasActiveMatch arch = false := by
    rw [hvD]
    exact deactivated_no_active_match v arch b i hidx honly
  constructor
  · intro hex
    obtain ⟨w, hwmem, hwne, hwact⟩ := hex
    have hww : deactVersion v.version i w = w := deactVersion_ne _ _ _ hwne
    have hex2 : ∃ u ∈ (deactPackage pname v.version i p).versions,
        u.hasActiveMatch arch = true := by
      refine ⟨w, ?_, hwact⟩
      rw [hpver, ← hww]
      exact List.mem_map_of_mem _ hwmem
    obtain ⟨v2, b2, hres⟩ := resolveBuild_ok_exists reg
      (setBuildInactive repo pname v.version i) pname archId _ arch hp2 ha hex2
    obtain ⟨hv2mem, hb2mem, hb2a, hb2m, hmax2⟩ :=
      resolveBuild_ok_correct reg (setBuildInactive repo pname v.version i)
        pname archId _ arch v2 b2 hp2 ha hres
    have hv2act : v2.hasActiveMatch arch = true :=
      List.any_eq_true.mpr ⟨b2, hb2mem, by simp [hb2a, hb2m]⟩
    rw [hpver] at hv2mem
    obtain ⟨w0, hw0mem, hw0eq⟩ := List.mem_map.mp hv2mem
    by_cases hw0v : w0.version = v.version
    · exfalso
      have hw0 : w0 = v := honlyV w0 hw0mem hw0v
      rw [hw0] at hw0eq
      rw [← hw0eq] at hv2act
      rw [hvDno] at hv2act
      cases hv2act
    · have hv2w0 : v2 = w0 := by
        rw [← hw0eq, deactVersion_ne _ _ _ hw0v]
      subst hv2w0
      refine ⟨v2, b2, hres, ?_, hv2act, ?_⟩
      · have hle := hmax v2 hw0mem hv2act
        omega
      · intro u humem hune huact
        refine hmax2 u ?_ huact
        rw [hpver]
        rw [← deactVersion_ne v.version i u hune]
        exact List.mem_map_of_mem _ humem
  · intro hno
    refine resolveBuild_all_inactive reg
      (setBuildInactive repo pname v.version i) pname archId _ arch hp2 ha ?_ ?_
    · intro u humem
      rw [hpver] at humem
      obtain ⟨w0, hw0mem, hw0eq⟩ := List.mem_map.mp humem
      by_cases hw0v : w0.version = v.version
      · have hw0 : w0 = v := honlyV w0 hw0mem hw0v
        rw [hw0] at hw0eq
        rw [← hw0eq]
        exact hvDno
      · rw [← hw0eq, deactVersion_ne _ _ _ hw0v]
        exact hno w0 hw0mem hw0v
    · refine ⟨deactVersion v.version i v, ?_, b.deactivate, ?_, ?_⟩
      · rw [hpver]
        exact List.mem_map_of_mem _ hv
      · rw [hvD]
        show b.deactivate ∈ deactivateNth v.builds i
        refine List.getElem?_mem (n := i) ?_
        rw [deactivateNth_getElem?, if_pos rfl, hidx]
        rfl
      · show b.deactivate.matches arch = true
        exact hbm

/-- C6: after deactivating the only active Build matching a given
architecture in the Version that `resolveBuild` currently selects,
resolution falls through to the next-newest Version that still has an
active compatible Build — returning one of its Builds, with no skipped
newer eligible Version — or fails with `NoCompatibleBuildError
AllInactive` when no Version has one; and deactivation never deletes a
Build: the build list keeps its length and the deactivated Build is still
there with only its `active` flag cleared. -/
theorem deactivate_falls_through :
    (∀ (reg : List Architecture) (repo : List Package) (pname archId : String)
       (p : Package) (arch : Architecture) (v : Version) (b : Build) (i : Nat),
       repo.find? (fun q => q.name == pname) = some p →
       findArch reg archId = .ok arch →
       resolveBuild reg repo pname archId none none none = .ok (v, b) →
       p.versionsDistinct →
       v.builds[i]? = some b →
       (∀ (j : Nat) (x : Build), v.builds[j]? = some x →
          (x.active && x.matches arch) = true → j = i) →
       ((∃ w ∈ p.versions, w.version ≠ v.version ∧ w.hasActiveMatch arch = true) →
          ∃ v2 b2,
            resolveBuild reg (setBuildInactive repo pname v.version i) pname
                archId none none none = .ok (v2, b2) ∧
              v2.version < v.version ∧ v2.hasActiveMatch arch = true ∧
              ∀ w ∈ p.versions, w.version ≠ v.version →
                w.hasActiveMatch arch = true → w.version ≤ v2.version) ∧
       ((∀ w ∈ p.versions, w.version ≠ v.version → w.hasActiveMatch arch = false) →
          resolveBuild reg (setBuildInactive repo pname v.version i) pname
              archId none none none = .error (.NoCompatibleBuildError .AllInactive))) ∧
    (∀ (bs : List Build) (i : Nat), (deactivateNth bs i).length = bs.length) ∧
    (∀ (bs : List Build) (i : Nat) (b : Build), bs[i]? = some b →
       (deactivateNth bs i)[i]? = some b.deactivate ∧
       b.deactivate.architectures = b.architectures ∧
       b.deactivate.active = false) := by
  refine ⟨deactivate_step, deactivateNth_length, ?_⟩
  intro bs i b hb
  refine ⟨?_, rfl, rfl⟩
  rw [deactivateNth_getElem?, if_pos rfl, hb]
  rfl

/-- C6 witness: a two-version Package on one architecture; deactivating
the single build of the newest Version makes resolution fall through to
the older Version, through `deactivate_falls_through`. -/
theorem deactivate_falls_through_witness :
    ∃ v2 b2,
      resolveBuild [x64A] [crossPkg] "p" "x64" none none none
        = .ok (crossV11, mkBuild [x64A]) ∧
      resolveBuild [x64A] (setBuildInactive [crossPkg] "p" crossV11.version 0)
          "p" "x64" none none none = .ok (v2, b2) ∧
      v2.version < crossV11.version ∧ v2.hasActiveMatch x64A = true := by
  have honly : ∀ (j : Nat) (x : Build), crossV11.builds[j]? = some x →
      (x.active && x.matches x64A) = true → j = 0 := by
    intro j x hj hx
    cases j with
    | zero => rfl
    | succ j =>
        exfalso
        have : crossV11.builds[j + 1]? = none := by rfl
        rw [this] at hj
        cases hj
  have hmain := (deactivate_falls_through.1 [x64A] [crossPkg] "p" "x64" crossPkg
    x64A crossV11 (mkBuild [x64A]) 0 (by rfl) (by rfl) (by rfl)
    (by unfold Package.versionsDistinct; decide) (by rfl) honly).1
  obtain ⟨v2, b2, hres, hlt, hact, _⟩ :=
    hmain ⟨crossV10, by decide, by decide, by decide⟩
  exact ⟨v2, b2, by rfl, hres, hlt, hact⟩

/-- C7 counterexample: on a concrete repository whose storage removal
fails, `depopulate` stops at the failed `shutil.rmtree`: the trace ends
with the failure, no commit happens and the Package row survives — the
database-side cascade is aborted, contrary to the claim. -/
theorem depopulate_failure_aborts_cascade :
    (depopulate (fun _ => false) [examplePkgA]).1 = [DbEvent.rmtreeFailed "a"] ∧
    (depopulate (fun _ => false) [examplePkgA]).2 = [examplePkgA] :=
  ⟨rfl, rfl⟩

end Spkrepo
